import Mathlib

/-!
# Verification of the edgar-cli document-retrieval core

Shallow embedding of the deterministic retrieval core of `edgar-cli`
(`src/commands/research.ts` together with the error taxonomy of
`src/core/errors.ts`), and proofs of the spec claims about it.

Modelling conventions:
* JS strings processed character-wise (tokenisation, trimming, chunking) are
  embedded as `List Char` (named `Str` below); strings used only as opaque
  identifiers (paths, accession numbers, dates) stay Lean `String`s.
* JS numbers used for scoring are embedded as `ℝ` (`Math.log` is `Real.log`);
  counters and indices are `ℕ`.
* `Map<string, number>` values read through `map.get(k) ?? 0` are embedded as
  total functions with default `0`.
* Filesystem, clock and network collaborators (entity resolution, the filing
  catalog, content fetch) are inputs to the embedded functions, mirroring §6
  of the design: their outputs are parameters, their failures are `Except`.
* `JSON.parse`/`JSON.stringify` round-tripping of well-formed JSON text is
  the runtime's guarantee; manifests are modelled at the JSON value level.
-/

namespace Edgar

/-- Error codes of the CLI error taxonomy (`src/core/errors.ts`). -/
inductive ErrorCode where
  | VALIDATION_ERROR
  | DOCS_REQUIRED
  | IDENTITY_REQUIRED
  | RATE_LIMITED
  | NOT_FOUND
  | NETWORK_ERROR
  | PARSE_ERROR
  | INTERNAL_ERROR
deriving DecidableEq

/-- A `CLIError` as thrown by the source: an error code plus a message. -/
structure CLIError where
  code : ErrorCode
  message : String
deriving DecidableEq

/-- Character-level representation of a JS string. -/
abbrev Str := List Char

/-- Whitespace characters recognised by JS `trim` (ASCII fragment: space,
tab, LF, CR, FF, VT; the Unicode space classes never occur in the inputs the
claims range over). -/
def isWsChar (c : Char) : Bool :=
  c = ' ' || c = '\t' || c = '\n' || c = '\r' || c = '\x0b' || c = '\x0c'

/-- JS `String.prototype.trim`: drop leading and trailing whitespace. -/
def trimStr (s : Str) : Str :=
  ((s.dropWhile isWsChar).reverse.dropWhile isWsChar).reverse

/-- JS `String.prototype.trimEnd`: drop trailing whitespace only. -/
def trimEndStr (s : Str) : Str :=
  (s.reverse.dropWhile isWsChar).reverse

/-- Prepend a character to the first line of a split. -/
def consHead (c : Char) : List Str → List Str
  | [] => [[c]]
  | line :: more => (c :: line) :: more

/-- JS `content.split(/\r?\n/)`: split on LF optionally preceded by CR.
Splitting the empty string yields one empty line, as in JS. -/
def splitLines : Str → List Str
  | [] => [[]]
  | '\r' :: '\n' :: rest => [] :: splitLines rest
  | '\n' :: rest => [] :: splitLines rest
  | c :: rest => consHead c (splitLines rest)

/-- A character matched by the token pattern `[a-z0-9]` (the source text is
lowercased before matching). -/
def isTokenChar (c : Char) : Bool :=
  ('a' ≤ c && c ≤ 'z') || ('0' ≤ c && c ≤ '9')

/-- Maximal runs of token characters, as produced by
`value.match(/[a-z0-9]+/g)`. `cur` is the current run, reversed. -/
def tokenRunsAux (cur : Str) : Str → List Str
  | [] => if cur.isEmpty then [] else [cur.reverse]
  | c :: rest =>
    if isTokenChar c then tokenRunsAux (c :: cur) rest
    else if cur.isEmpty then tokenRunsAux [] rest
    else cur.reverse :: tokenRunsAux [] rest

/-- `tokenize` from the source: lowercase, take maximal alphanumeric runs,
keep those of length at least 2. -/
def tokenize (value : Str) : List Str :=
  (tokenRunsAux [] (value.map Char.toLower)).filter (fun token => 2 ≤ token.length)

/-- `buildTermFrequency`: the JS `Map` built by incrementing a counter per
token, read back through `get(term) ?? 0`, is exactly the occurrence count. -/
def buildTermFrequency (tokens : List Str) : Str → ℕ :=
  fun term => tokens.count term

/-- `c` is an ASCII digit (`\d` over the accession patterns used here). -/
def isDigitChar (c : Char) : Bool :=
  '0' ≤ c && c ≤ '9'

/-- Match exactly `n` digits at the front of `s`, returning them and the rest. -/
def takeDigits (n : ℕ) (s : Str) : Option (Str × Str) :=
  let pre := s.take n
  if pre.length = n && pre.all isDigitChar then some (pre, s.drop n) else none

/-- Match the accession shape `\d{10}-\d{2}-\d{6}` at the front of `s`. -/
def accessionAt (s : Str) : Option Str :=
  match takeDigits 10 s with
  | none => none
  | some (d1, r1) =>
    match r1 with
    | '-' :: r2 =>
      match takeDigits 2 r2 with
      | none => none
      | some (d2, r3) =>
        match r3 with
        | '-' :: r4 =>
          match takeDigits 6 r4 with
          | none => none
          | some (d3, _) => some (d1 ++ '-' :: (d2 ++ '-' :: d3))
        | _ => none
    | _ => none

/-- Left-to-right regex scan, first match wins (JS `String.prototype.match`
without `^`). -/
def scanAccession : Str → Option Str
  | [] => none
  | c :: rest =>
    match accessionAt (c :: rest) with
    | some a => some a
    | none => scanAccession rest

/-- `extractAccession` from the source: first `\d{10}-\d{2}-\d{6}` match in
the document path, if any. -/
def extractAccession (docPath : String) : Option String :=
  (scanAccession docPath.toList).map fun a => String.mk a

/-- A chunk record as built by `chunkDocument` (§3 Data Model). -/
structure Chunk where
  docPath : String
  accession : Option String
  lineStart : ℕ
  lineEnd : ℕ
  text : Str
  tokenCount : ℕ
  termFrequency : Str → ℕ

/-- `chunkLines.join('\n')` on a window of lines. -/
def joinLines : List Str → Str
  | [] => []
  | [l] => l
  | l :: rest => l ++ '\n' :: joinLines rest

/-- The chunking loop of `chunkDocument`. `fuel` bounds the number of loop
iterations (the source loop advances `lineIdx` by `step ≥ 1` each pass, so
`lines.length` iterations always suffice; the fuel-0 branch is unreachable
from `chunkDocument`). -/
def chunkLoop (docPath : String) (accession : Option String) (lines : List Str)
    (chunkLines chunkOverlap : ℕ) : ℕ → ℕ → List Chunk
  | _lineIdx, 0 => []
  | lineIdx, fuel + 1 =>
    if lineIdx < lines.length then
      let step := max 1 (chunkLines - chunkOverlap)
      let endExclusive := min lines.length (lineIdx + chunkLines)
      let window := (lines.drop lineIdx).take chunkLines
      let text := trimStr (joinLines window)
      if text.length = 0 then
        if lines.length ≤ endExclusive then []
        else chunkLoop docPath accession lines chunkLines chunkOverlap (lineIdx + step) fuel
      else
        let tokens := tokenize text
        { docPath := docPath
          accession := accession
          lineStart := lineIdx + 1
          lineEnd := endExclusive
          text := text
          tokenCount := tokens.length
          termFrequency := buildTermFrequency tokens } ::
          (if lines.length ≤ endExclusive then []
           else chunkLoop docPath accession lines chunkLines chunkOverlap (lineIdx + step) fuel)
    else []

/-- `chunkDocument` from the source: split into lines, then slide a window of
`chunkLines` lines advancing by `max 1 (chunkLines - chunkOverlap)`. -/
def chunkDocument (docPath : String) (content : Str) (chunkLines chunkOverlap : ℕ) :
    List Chunk :=
  let lines := splitLines content
  chunkLoop docPath (extractAccession docPath) lines chunkLines chunkOverlap 0 lines.length

/-- The query stop-word set `QUERY_STOPWORDS`. -/
def queryStopwords : List Str :=
  (["a", "an", "and", "are", "as", "at", "be", "by", "for", "from", "how", "in",
    "into", "is", "it", "its", "of", "on", "or", "that", "the", "their", "there",
    "these", "they", "this", "to", "was", "were", "what", "when", "where",
    "which", "who", "why", "with"]).map String.toList

/-- `uniqueTokens`: JS `[...new Set(tokens)]` keeps the first occurrence of
each token, in order. `seen` accumulates tokens already emitted. -/
def uniqueTokensAux (seen : List Str) : List Str → List Str
  | [] => []
  | t :: rest =>
    if t ∈ seen then uniqueTokensAux seen rest
    else t :: uniqueTokensAux (t :: seen) rest

/-- `uniqueTokens` from the source. -/
def uniqueTokens (tokens : List Str) : List Str :=
  uniqueTokensAux [] tokens

/-- `buildQueryTerms`: tokenize, drop stop words, fall back to the raw token
list when filtering removes everything, deduplicate. -/
def buildQueryTerms (query : Str) : List Str :=
  let rawTokens := tokenize query
  let filtered := rawTokens.filter (fun token => !queryStopwords.contains token)
  let terms := if 0 < filtered.length then filtered else rawTokens
  uniqueTokens terms

/-- Adjacent pairs `"a b"` of the query-term sequence. -/
def adjacentBigrams : List Str → List Str
  | a :: b :: rest => (a ++ ' ' :: b) :: adjacentBigrams (b :: rest)
  | _ => []

/-- `buildQueryBigrams` from the source. -/
def buildQueryBigrams (queryTerms : List Str) : List Str :=
  uniqueTokens (adjacentBigrams queryTerms)

/-- JS `hay.includes(pat)` on character lists. -/
def hasSub (pat : Str) : Str → Bool
  | [] => pat.isEmpty
  | c :: rest => pat.isPrefixOf (c :: rest) || hasSub pat rest

/-- `countTermHits`: number of query terms with positive frequency. -/
def countTermHits (queryTerms : List Str) (termFrequency : Str → ℕ) : ℕ :=
  queryTerms.foldl (fun hits term => hits + if 0 < termFrequency term then 1 else 0) 0

/-- `countBigramHits`: literal case-insensitive substring matches of the query
bigrams in the chunk text. -/
def countBigramHits (chunkText : Str) (queryBigrams : List Str) : ℕ :=
  if queryBigrams.length = 0 then 0
  else
    let text := chunkText.map Char.toLower
    queryBigrams.foldl (fun hits bigram => hits + if hasSub bigram text then 1 else 0) 0

/-- The `COVER_BOILERPLATE_PATTERNS` (each regex is a literal phrase matched
case-insensitively; `\(`/`\)` are literal parentheses). -/
def coverBoilerplatePatterns : List Str :=
  (["securities registered pursuant to section 12(b)",
    "indicate by check mark",
    "commission file number",
    "for the quarterly period ended",
    "for the fiscal year ended"]).map String.toList

/-- `looksLikeCoverBoilerplate` from the source. -/
def looksLikeCoverBoilerplate (chunk : Chunk) : Bool :=
  if 140 < chunk.lineStart then false
  else coverBoilerplatePatterns.any (fun pat => hasSub pat (chunk.text.map Char.toLower))

/-- BM25 parameter `k1 = 1.2`. -/
def bm25K1 : ℝ := 1.2

/-- BM25 parameter `b = 0.75`. -/
def bm25B : ℝ := 0.75

/-- `bm25Score` from the source: fold over the query terms, skipping terms
absent from the chunk, accumulating the per-term BM25 contribution.
`totalChunkCount` is `N`, `docFrequencyByTerm` reads `df` for a term. -/
noncomputable def bm25Score (queryTerms : List Str) (chunk : Chunk)
    (docFrequencyByTerm : Str → ℕ) (totalChunkCount : ℕ)
    (averageChunkLength : ℝ) : ℝ :=
  queryTerms.foldl
    (fun score term =>
      let tf := chunk.termFrequency term
      if tf = 0 then score
      else
        let df := docFrequencyByTerm term
        let idf := Real.log (1 + ((totalChunkCount : ℝ) - (df : ℝ) + 0.5) / ((df : ℝ) + 0.5))
        let normalizedLength :=
          if 0 < averageChunkLength then (chunk.tokenCount : ℝ) / averageChunkLength else 1
        let denominator := (tf : ℝ) + bm25K1 * (1 - bm25B + bm25B * normalizedLength)
        score + idf * (((tf : ℝ) * (bm25K1 + 1)) / denominator))
    0

/-- The spec's formula for a single term's BM25 contribution, written from the
spec's words (§4.2 step 4): terms absent from the chunk contribute 0; present
terms contribute `idf * (tf*(k1+1)) / (tf + k1*(1 - b + b*(chunk_tokens/avg_tokens)))`
with `idf = ln(1 + (N - df + 0.5)/(df + 0.5))`, `k1 = 1.2`, `b = 0.75`. -/
noncomputable def specBm25TermContribution (tf df n chunkTokens : ℕ) (avgTokens : ℝ) : ℝ :=
  if tf = 0 then 0
  else
    Real.log (1 + ((n : ℝ) - (df : ℝ) + 0.5) / ((df : ℝ) + 0.5)) *
      (((tf : ℝ) * (1.2 + 1)) /
        ((tf : ℝ) + 1.2 * (1 - 0.75 + 0.75 * ((chunkTokens : ℝ) / avgTokens))))

/-- `adjustedChunkScore` from the source: hard filter, coverage multiplier,
bigram multiplier, boilerplate downranking. -/
noncomputable def adjustedChunkScore (chunk : Chunk) (baseScore : ℝ)
    (queryTerms queryBigrams : List Str) : ℝ :=
  if baseScore ≤ 0 then 0
  else
    let termHits := countTermHits queryTerms chunk.termFrequency
    if 3 ≤ queryTerms.length ∧ termHits < 2 then 0
    else
      let coverage : ℝ := (termHits : ℝ) / ((max 1 queryTerms.length : ℕ) : ℝ)
      let bigramHits := countBigramHits chunk.text queryBigrams
      let coverageMultiplier : ℝ :=
        if 1 ≤ coverage then 1.25
        else if 0.7 ≤ coverage then 1.15
        else if 0.5 ≤ coverage then 1.08
        else if 3 ≤ queryTerms.length ∧ coverage ≤ 0.25 then 0.8
        else 1
      let bigramMultiplier : ℝ :=
        if 0 < bigramHits then 1 + min 0.24 ((bigramHits : ℝ) * 0.08) else 1
      let boilerplateMultiplier : ℝ :=
        if looksLikeCoverBoilerplate chunk then 0.45 else 1
      baseScore * (coverageMultiplier * bigramMultiplier * boilerplateMultiplier)

/-- `compactWhitespace` step 1: `replace(/[ \t]+/g, ' ')`. -/
def collapseHorizontalWs : Str → Str
  | [] => []
  | c :: rest =>
    if c = ' ' || c = '\t' then
      ' ' :: collapseHorizontalWs (rest.dropWhile (fun d => d = ' ' || d = '\t'))
    else c :: collapseHorizontalWs rest
termination_by s => s.length
decreasing_by
  · exact Nat.lt_succ_of_le (List.Sublist.length_le (List.dropWhile_sublist _))
  · simp

/-- `compactWhitespace` step 2: `replace(/\n{3,}/g, '\n\n')`. -/
def collapseNewlineRuns : Str → Str
  | [] => []
  | c :: rest =>
    if c = '\n' then
      let runLen := 1 + (rest.takeWhile (fun d => d = '\n')).length
      (if 3 ≤ runLen then ['\n', '\n'] else List.replicate runLen '\n') ++
        collapseNewlineRuns (rest.dropWhile (fun d => d = '\n'))
    else c :: collapseNewlineRuns rest
termination_by s => s.length
decreasing_by
  · exact Nat.lt_succ_of_le (List.Sublist.length_le (List.dropWhile_sublist _))
  · simp

/-- `compactWhitespace` from the source. -/
def compactWhitespace (value : Str) : Str :=
  trimStr (collapseNewlineRuns (collapseHorizontalWs value))

/-- `trimExcerpt` from the source (`Math.max(0, maxChars - 3)` is `ℕ`
subtraction). -/
def trimExcerpt (value : Str) (maxChars : ℕ) : Str :=
  if value.length ≤ maxChars then value
  else trimEndStr (value.take (maxChars - 3)) ++ ['.', '.', '.']

/-- A scored chunk of the ranking pipeline. `idx` is ghost data recording the
chunk's discovery position (document order, then line order); the source keeps
this implicitly as the array position, which JS's stable `sort` preserves on
ties. -/
structure ScoredChunk where
  idx : ℕ
  chunk : Chunk
  score : ℝ

/-- The comparator `(a, b) => b.score - a.score`: `a` sorts before `b` exactly
when `b.score ≤ a.score` does not force a swap; ties are kept in input order
by sort stability. -/
noncomputable def scoreSortLe (a b : ScoredChunk) : Bool :=
  decide (b.score ≤ a.score)

/-- The tail of `runLexicalSearch`: `.filter(score > 0).sort(desc).slice(0, topK)`.
JS `Array.prototype.sort` is stable (ECMAScript 2019), embedded as `mergeSort`. -/
noncomputable def rankScored (scored : List ScoredChunk) (topK : ℕ) : List ScoredChunk :=
  ((scored.filter (fun s => decide (0 < s.score))).mergeSort scoreSortLe).take topK

/-- An input document for the explicit-document search path: its path and its
text content (the source reads the content from disk through
`ensureReadableTextFile`; the filesystem is a collaborator here, so contents
are supplied). -/
structure DocInput where
  path : String
  content : Str

/-- Per-document metadata reported by the search. -/
structure DocMeta where
  path : String
  bytes : ℕ
  line_count : ℕ
deriving DecidableEq

/-- One ranked search result. -/
structure SearchResultEntry where
  rank : ℕ
  score : ℝ
  path : String
  accession : Option String
  line_start : ℕ
  line_end : ℕ
  excerpt : Str

/-- The success payload of `runLexicalSearch`. In the source the empty-corpus
early return omits `query_terms` and `chunk_count`; here they are `[]` and `0`
in that branch. -/
structure SearchData where
  query : Str
  query_terms : List Str
  docs : List DocMeta
  chunk_count : ℕ
  result_count : ℕ
  results : List SearchResultEntry

/-- `Number(x.toFixed(6))`, modelled as rounding to 6 decimal places. -/
noncomputable def roundTo6 (x : ℝ) : ℝ :=
  ((round (x * 1000000) : ℤ) : ℝ) / 1000000

/-- The candidate chunk set of a search: every document's chunks, in document
order (`docs.flatMap(doc => doc.chunks)`). -/
def allChunksOf (docInputs : List DocInput) (chunkLines chunkOverlap : ℕ) : List Chunk :=
  (docInputs.map (fun d => chunkDocument d.path d.content chunkLines chunkOverlap)).flatten

/-- `runLexicalSearch` from the source: validate the query and window
parameters, chunk the documents, return empty results for an empty candidate
set, otherwise derive query terms (failing on an empty term set), compute
corpus statistics, score, rank and render results. -/
noncomputable def runLexicalSearch (query : Str) (docInputs : List DocInput)
    (topK chunkLines chunkOverlap : ℕ) : Except CLIError SearchData :=
  let q := trimStr query
  if q.length = 0 then
    .error ⟨.VALIDATION_ERROR, "Query must not be empty"⟩
  else if chunkLines ≤ chunkOverlap then
    .error ⟨.VALIDATION_ERROR, "--chunk-overlap must be less than --chunk-lines"⟩
  else
    let docMetas := docInputs.map fun d =>
      { path := d.path
        bytes := (d.content.map Char.utf8Size).sum
        line_count := (splitLines d.content).length : DocMeta }
    let allChunks := allChunksOf docInputs chunkLines chunkOverlap
    if allChunks.length = 0 then
      .ok { query := q, query_terms := [], docs := docMetas, chunk_count := 0,
            result_count := 0, results := [] }
    else
      let queryTerms := buildQueryTerms q
      if queryTerms.length = 0 then
        .error ⟨.VALIDATION_ERROR, "Query must contain at least one alphanumeric token"⟩
      else
        let queryBigrams := buildQueryBigrams queryTerms
        let docFrequencyByTerm : Str → ℕ := fun term =>
          (allChunks.filter (fun c => 0 < c.termFrequency term)).length
        let averageChunkLength : ℝ :=
          (((allChunks.map (fun c => c.tokenCount)).sum : ℕ) : ℝ) /
            ((max allChunks.length 1 : ℕ) : ℝ)
        let scored := allChunks.enum.map fun p =>
          { idx := p.1
            chunk := p.2
            score := adjustedChunkScore p.2
              (bm25Score queryTerms p.2 docFrequencyByTerm allChunks.length averageChunkLength)
              queryTerms queryBigrams : ScoredChunk }
        let ranked := rankScored scored topK
        .ok { query := q, query_terms := queryTerms, docs := docMetas,
              chunk_count := allChunks.length, result_count := ranked.length,
              results := ranked.enum.map fun p =>
                { rank := p.1 + 1
                  score := roundTo6 p.2.score
                  path := p.2.chunk.docPath
                  accession := p.2.chunk.accession
                  line_start := p.2.chunk.lineStart
                  line_end := p.2.chunk.lineEnd
                  excerpt := trimExcerpt (compactWhitespace p.2.chunk.text) 1200 } }

/-- A cached document descriptor (`CachedDoc` in the source; TS `null` is
`none`). -/
structure CachedDoc where
  accession : String
  form : Option String
  filing_date : Option String
  report_date : Option String
  filing_url : Option String
  path : String
deriving DecidableEq

/-- A cached manifest (`CachedManifest` in the source). `profile` is kept as
its runtime string value. -/
structure CachedManifest where
  version : Int
  id_input : String
  cik : String
  ticker : Option String
  title : Option String
  profile : String
  synced_at : String
  docs : List CachedDoc
deriving DecidableEq

/-- JSON values, as produced by `JSON.parse` on manifest files. -/
inductive Json where
  | null : Json
  | bool (b : Bool) : Json
  | num (n : Int) : Json
  | str (s : String) : Json
  | arr (items : List Json) : Json
  | obj (fields : List (String × Json)) : Json

/-- Property lookup on a parsed JSON value (`undefined` is `none`). -/
def Json.lookup (j : Json) (key : String) : Option Json :=
  match j with
  | .obj fields => fields.lookup key
  | _ => none

/-- Serialise an optional string the way `JSON.stringify` renders the TS
`string | null` fields. -/
def optStrJson : Option String → Json
  | some s => .str s
  | none => .null

/-- The JSON shape `JSON.stringify` produces for a `CachedDoc`. -/
def cachedDocToJson (d : CachedDoc) : Json :=
  .obj [("accession", .str d.accession), ("form", optStrJson d.form),
        ("filing_date", optStrJson d.filing_date),
        ("report_date", optStrJson d.report_date),
        ("filing_url", optStrJson d.filing_url), ("path", .str d.path)]

/-- The JSON shape `JSON.stringify` produces for a `CachedManifest`; this is
what `writeCachedManifest` persists (pretty-printing aside). -/
def manifestToJson (m : CachedManifest) : Json :=
  .obj [("version", .num m.version), ("id_input", .str m.id_input),
        ("cik", .str m.cik), ("ticker", optStrJson m.ticker),
        ("title", optStrJson m.title), ("profile", .str m.profile),
        ("synced_at", .str m.synced_at),
        ("docs", .arr (m.docs.map cachedDocToJson))]

/-- Read back an optional-string field. The source validates only `version`,
`cik`, and each doc's `path`/`accession`, then casts; unvalidated fields are
taken as-is when they are strings and as absent otherwise, mirroring the cast. -/
def asOptString : Option Json → Option String
  | some (.str s) => some s
  | _ => none

/-- Decode one entry of the `docs` array. The source accepts an entry exactly
when it is truthy with string `path` and string `accession` fields. -/
def decodeCachedDoc (j : Json) : Option CachedDoc :=
  match j.lookup "path", j.lookup "accession" with
  | some (.str path), some (.str accession) =>
    some { accession := accession
           form := asOptString (j.lookup "form")
           filing_date := asOptString (j.lookup "filing_date")
           report_date := asOptString (j.lookup "report_date")
           filing_url := asOptString (j.lookup "filing_url")
           path := path }
  | _, _ => none

/-- Decode the `docs` array entry by entry (`docs.every(...)` in the source:
all entries must pass). -/
def decodeCachedDocs : List Json → Option (List CachedDoc)
  | [] => some []
  | j :: rest =>
    match decodeCachedDoc j, decodeCachedDocs rest with
    | some d, some ds => some (d :: ds)
    | _, _ => none

/-- `parseCachedManifest` from the source: a non-object, a wrong `version`
tag, a non-string `cik`, a non-array `docs`, or a docs entry without string
`path` and `accession` all throw
`CLIError(ErrorCode.PARSE_ERROR, 'Cached manifest is malformed')`. -/
def parseCachedManifest (value : Json) : Except CLIError CachedManifest :=
  match value.lookup "version", value.lookup "cik", value.lookup "docs" with
  | some (.num 1), some (.str cik), some (.arr docsJson) =>
    match decodeCachedDocs docsJson with
    | some docs =>
      .ok { version := 1
            id_input := (asOptString (value.lookup "id_input")).getD ""
            cik := cik
            ticker := asOptString (value.lookup "ticker")
            title := asOptString (value.lookup "title")
            profile := (asOptString (value.lookup "profile")).getD ""
            synced_at := (asOptString (value.lookup "synced_at")).getD ""
            docs := docs }
    | none => .error ⟨.PARSE_ERROR, "Cached manifest is malformed"⟩
  | _, _, _ => .error ⟨.PARSE_ERROR, "Cached manifest is malformed"⟩

/-- A filing row returned by the filing-catalog collaborator
(`runFilingsList`). -/
structure FilingRow where
  accession : String
  form : Option String
  filingDate : Option String
  reportDate : Option String
  filingUrl : Option String
deriving DecidableEq

/-- A sync rule of a selection profile. -/
structure SyncRule where
  form : String
  queryLimit : ℕ
  recentDays : Option ℕ
deriving DecidableEq

/-- The named selection profiles. -/
inductive ResearchProfile where
  | core
  | events
  | financials
deriving DecidableEq

/-- `PROFILE_RULES` from the source. -/
def PROFILE_RULES : ResearchProfile → List SyncRule
  | .core => [⟨"10-K", 1, none⟩, ⟨"10-Q", 3, none⟩, ⟨"8-K", 12, some 180⟩]
  | .events => [⟨"8-K", 24, some 365⟩]
  | .financials => [⟨"10-K", 2, none⟩, ⟨"10-Q", 6, none⟩]

/-- One step of the selection merge: `if (!selectedByAccession.has(row.accession))
selectedByAccession.set(row.accession, row)`. A JS `Map` iterates its values in
insertion order, so the map is an append-only association list here. -/
def insertRow (sel : List FilingRow) (row : FilingRow) : List FilingRow :=
  if sel.any (fun r => r.accession == row.accession) then sel else sel ++ [row]

/-- The rule loop of `runResearchSync`: each rule's catalog rows are folded
into the selection in order; the first rule to introduce an accession wins. -/
def mergeSelection (ruleRows : List (List FilingRow)) : List FilingRow :=
  ruleRows.foldl (fun sel rows => rows.foldl insertRow sel) []

/-- The sort key `(row.filingDate ?? '')`. -/
def filingDateKey (r : FilingRow) : String :=
  r.filingDate.getD ""

/-- The selection of `runResearchSync`: merged rows sorted descending by
filing date. `localeCompare` on these ASCII date strings is lexicographic
comparison; JS `sort` is stable, embedded as `mergeSort`. -/
def selectRows (ruleRows : List (List FilingRow)) : List FilingRow :=
  (mergeSelection ruleRows).mergeSort
    (fun a b => decide (filingDateKey b ≤ filingDateKey a))

/-- `filingDocPath` from the source (`path.join` rendered with `/`). -/
def filingDocPath (cacheRoot cik accession : String) : String :=
  cacheRoot ++ "/research/companies/" ++ cik ++ "/filings/" ++ accession ++ ".md"

/-- `profileManifestPath` from the source. -/
def profileManifestPath (cacheRoot cik profile : String) : String :=
  cacheRoot ++ "/research/companies/" ++ cik ++ "/profiles/" ++ profile ++ ".json"

/-- The external collaborators of the per-filing fetch loop: which cache
paths already exist on disk, and what fetching a filing's content returns.
`fetchContent` models `runFilingsGet` plus the extraction of `data.content`:
`.error e` is a thrown `CLIError`; `.ok none` is a payload whose `content` is
not a string, which the loop turns into a `PARSE_ERROR` (thrown inside the
`try`, rethrown by the `catch` because its code is not `NOT_FOUND`). -/
structure SyncEnv where
  existingFile : String → Bool
  fetchContent : String → Except CLIError (Option String)

/-- The mutable state of the fetch loop. -/
structure LoopState where
  docs : List CachedDoc
  skipped : List (String × String)
  fetchedCount : ℕ
  reusedCount : ℕ
deriving DecidableEq

/-- The descriptor pushed onto `docs` for a selected filing. -/
def mkCachedDoc (row : FilingRow) (docPath : String) : CachedDoc :=
  { accession := row.accession
    form := row.form
    filing_date := row.filingDate
    report_date := row.reportDate
    filing_url := row.filingUrl
    path := docPath }

/-- The per-filing fetch loop of `runResearchSync` (source lines 687-734):
reuse a cached file unless `refresh` is set, otherwise fetch; a `NOT_FOUND`
fetch failure records the filing as skipped and continues; any other failure
aborts the whole loop. -/
def syncLoop (env : SyncEnv) (cacheRoot cik : String) (refresh : Bool) :
    List FilingRow → LoopState → Except CLIError LoopState
  | [], st => .ok st
  | row :: rest, st =>
    let docPath := filingDocPath cacheRoot cik row.accession
    let shouldUseCache := !refresh && env.existingFile docPath
    if shouldUseCache then
      syncLoop env cacheRoot cik refresh rest
        { st with
          docs := st.docs ++ [mkCachedDoc row docPath]
          reusedCount := st.reusedCount + 1 }
    else
      match env.fetchContent row.accession with
      | .error e =>
        if e.code = .NOT_FOUND then
          syncLoop env cacheRoot cik refresh rest
            { st with skipped := st.skipped ++ [(row.accession, e.message)] }
        else .error e
      | .ok none =>
        .error ⟨.PARSE_ERROR,
          "Unable to parse markdown content for accession " ++ row.accession⟩
      | .ok (some _content) =>
        syncLoop env cacheRoot cik refresh rest
          { st with
            docs := st.docs ++ [mkCachedDoc row docPath]
            fetchedCount := st.fetchedCount + 1 }

/-- The report of a completed sync: the manifest persisted through the
Cache/Manifest Store plus the counters of the returned payload. -/
structure SyncReport where
  manifest : CachedManifest
  manifestPath : String
  docs_count : ℕ
  fetched_count : ℕ
  reused_count : ℕ
  skipped_count : ℕ
  skipped : List (String × String)
deriving DecidableEq

/-- `runResearchSync` from the source. Entity resolution (`resolveEntity`),
the catalog listing of each rule (`runFilingsList`) and the clock are external
collaborators, so the resolved identity (`idInput`, `cik`, `ticker`, `title`),
the per-rule catalog rows (`ruleRows`, one list per profile rule, in rule
order) and the timestamp (`syncedAt`) are inputs. The manifest exists only in
the `.ok` payload: an aborted sync writes no manifest. -/
def runResearchSync (env : SyncEnv) (idInput cik : String)
    (ticker title : Option String) (profile : String)
    (ruleRows : List (List FilingRow)) (cacheRoot : String) (refresh : Bool)
    (syncedAt : String) : Except CLIError SyncReport :=
  let selectedRows := selectRows ruleRows
  (syncLoop env cacheRoot cik refresh selectedRows ⟨[], [], 0, 0⟩).map fun st =>
    { manifest :=
        { version := 1, id_input := idInput, cik := cik, ticker := ticker,
          title := title, profile := profile, synced_at := syncedAt,
          docs := st.docs }
      manifestPath := profileManifestPath cacheRoot cik profile
      docs_count := st.docs.length
      fetched_count := st.fetchedCount
      reused_count := st.reusedCount
      skipped_count := st.skipped.length
      skipped := st.skipped }

/-- Concrete collaborator fixture: nothing cached, every fetch says the
document cannot be located. -/
def witnessEnvNotFound : SyncEnv where
  existingFile := fun _ => false
  fetchContent := fun _ => Except.error ⟨.NOT_FOUND, "filing not found"⟩

/-- Concrete collaborator fixture: nothing cached, every fetch succeeds. -/
def witnessEnvOk : SyncEnv where
  existingFile := fun _ => false
  fetchContent := fun _ => Except.ok (some "# Filing")

/-- Concrete filing-row fixture. -/
def witnessRow : FilingRow where
  accession := "0000320193-25-000001"
  form := none
  filingDate := none
  reportDate := none
  filingUrl := none

/-- The report a one-filing sync against `witnessEnvOk` produces. -/
def witnessReport : SyncReport where
  manifest :=
    { version := 1, id_input := "AAPL", cik := "0000320193", ticker := none,
      title := none, profile := "core", synced_at := "2025-01-01T00:00:00Z",
      docs := [{ accession := "0000320193-25-000001", form := none,
                 filing_date := none, report_date := none, filing_url := none,
                 path := "/cache/research/companies/0000320193/filings/0000320193-25-000001.md" }] }
  manifestPath := "/cache/research/companies/0000320193/profiles/core.json"
  docs_count := 1
  fetched_count := 1
  reused_count := 0
  skipped_count := 0
  skipped := []

end Edgar

namespace Edgar

theorem mem_dropWhile_of_not {α : Type} {p : α → Bool} {c : α} {l : List α}
    (hc : c ∈ l) (hpc : p c = false) : c ∈ l.dropWhile p := by
  induction l with
  | nil => simp at hc
  | cons x xs ih =>
    by_cases hx : p x
    · rcases List.mem_cons.mp hc with rfl | hmem
      · simp [hpc] at hx
      · simpa [List.dropWhile_cons, hx] using ih hmem
    · simpa [List.dropWhile_cons, hx] using hc

theorem trimStr_eq_nil_iff {s : Str} : trimStr s = [] ↔ ∀ c ∈ s, isWsChar c = true := by
  constructor
  · intro h c hc
    by_contra hw
    have hw' : isWsChar c = false := by simpa using hw
    have h1 : c ∈ s.dropWhile isWsChar := mem_dropWhile_of_not hc hw'
    have h2 : c ∈ (s.dropWhile isWsChar).reverse := by simpa using h1
    have h3 : c ∈ (s.dropWhile isWsChar).reverse.dropWhile isWsChar :=
      mem_dropWhile_of_not h2 hw'
    have h4 : c ∈ trimStr s := by simpa [trimStr] using h3
    rw [h] at h4
    simp at h4
  · intro h
    have h1 : s.dropWhile isWsChar = [] := List.dropWhile_eq_nil_iff.mpr h
    simp [trimStr, h1]

theorem mem_joinLines {c : Char} {l : Str} {L : List Str}
    (hc : c ∈ l) (hl : l ∈ L) : c ∈ joinLines L := by
  induction L with
  | nil => simp at hl
  | cons x xs ih =>
    rcases List.mem_cons.mp hl with rfl | hmem
    · cases xs with
      | nil => simpa [joinLines] using hc
      | cons y ys =>
        simp only [joinLines, List.mem_append, List.mem_cons]
        exact Or.inl hc
    · cases xs with
      | nil => simp at hmem
      | cons y ys =>
        simp only [joinLines, List.mem_append, List.mem_cons]
        exact Or.inr (Or.inr (ih hmem))

theorem trim_joinLines_ne_nil {l : Str} {L : List Str}
    (hl : l ∈ L) (hnb : trimStr l ≠ []) : trimStr (joinLines L) ≠ [] := by
  intro h
  apply hnb
  rw [trimStr_eq_nil_iff] at h ⊢
  intro c hc
  exact h c (mem_joinLines hc hl)

theorem splitLines_ne_nil (s : Str) : splitLines s ≠ [] := by
  induction s using splitLines.induct with
  | case1 => simp [splitLines]
  | case2 rest ih => simp [splitLines]
  | case3 rest ih => simp [splitLines]
  | case4 c rest h1 h2 ih =>
    have heq : splitLines (c :: rest) = consHead c (splitLines rest) := by
      simp [splitLines, h1, h2]
    rw [heq]
    cases h : splitLines rest with
    | nil => simp [consHead]
    | cons line more => simp [consHead]

theorem chunkLoop_nonblank (docPath : String) (acc : Option String) (lines : List Str)
    (cl co : ℕ) (hcl : 0 < cl) (hco : co < cl)
    (hnb : ∀ l ∈ lines, trimStr l ≠ []) :
    ∀ fuel lineIdx, lineIdx < lines.length → lines.length - lineIdx ≤ fuel →
      ((chunkLoop docPath acc lines cl co lineIdx fuel).map (fun c => c.lineStart) =
        (List.range (chunkLoop docPath acc lines cl co lineIdx fuel).length).map
          (fun i => lineIdx + 1 + (cl - co) * i)) ∧
      ((chunkLoop docPath acc lines cl co lineIdx fuel).map (fun c => c.lineEnd)).getLast?
        = some lines.length := by
  intro fuel
  induction fuel with
  | zero => intro lineIdx h1 h2; omega
  | succ fuel ih =>
    intro lineIdx h1 h2
    have hstep : max 1 (cl - co) = cl - co := Nat.max_eq_right (by omega)
    -- the current window is nonempty and consists of document lines
    have hdrop : lines.drop lineIdx ≠ [] := by
      intro hd
      rw [List.drop_eq_nil_iff] at hd
      omega
    obtain ⟨w, ws, hw⟩ : ∃ w ws, lines.drop lineIdx = w :: ws := by
      cases hd : lines.drop lineIdx with
      | nil => exact absurd hd hdrop
      | cons w ws => exact ⟨w, ws, rfl⟩
    have hwmem : w ∈ (lines.drop lineIdx).take cl := by
      rw [hw]
      cases cl with
      | zero => omega
      | succ n => simp
    have hwlines : w ∈ lines := by
      have := List.mem_of_mem_take hwmem
      exact List.mem_of_mem_drop this
    have htext : trimStr (joinLines ((lines.drop lineIdx).take cl)) ≠ [] :=
      trim_joinLines_ne_nil hwmem (hnb w hwlines)
    have htlen : ¬ (trimStr (joinLines ((lines.drop lineIdx).take cl))).length = 0 := by
      simpa [List.length_eq_zero] using htext
    simp only [chunkLoop, if_pos h1, hstep]
    rw [if_neg htlen]
    by_cases hend : lines.length ≤ min lines.length (lineIdx + cl)
    · have hendeq : min lines.length (lineIdx + cl) = lines.length := by omega
      simp only [if_pos hend]
      refine ⟨by simp [List.range_succ], ?_⟩
      simp [hendeq]
    · have hlt' : lineIdx + (cl - co) < lines.length := by omega
      have hfuel' : lines.length - (lineIdx + (cl - co)) ≤ fuel := by omega
      obtain ⟨ihStart, ihLast⟩ := ih (lineIdx + (cl - co)) hlt' hfuel'
      simp only [if_neg hend]
      constructor
      · simp only [List.map_cons, List.length_cons]
        rw [ihStart, List.range_succ_eq_map]
        simp only [List.map_cons, List.map_map]
        refine List.cons_eq_cons.mpr ⟨by simp, ?_⟩
        apply List.map_congr_left
        intro i _
        simp only [Function.comp_apply, Nat.succ_eq_add_one]
        ring
      · simp only [List.map_cons]
        cases hrec : (chunkLoop docPath acc lines cl co (lineIdx + (cl - co)) fuel).map
            (fun c => c.lineEnd) with
        | nil => rw [hrec] at ihLast; simp at ihLast
        | cons z zs =>
          rw [hrec] at ihLast
          rw [List.getLast?_cons_cons]
          exact ihLast

end Edgar

namespace Edgar

/-- C3: for all `chunk_lines > 0` and `0 ≤ chunk_overlap < chunk_lines`,
chunking a document of N non-blank lines yields chunks whose `line_start`
values advance by exactly `chunk_lines - chunk_overlap` (the i-th chunk starts
at line `1 + i * (chunk_lines - chunk_overlap)`), and the final chunk's
`line_end` equals N, the document's line count. -/
theorem chunkDocument_line_ranges (docPath : String) (content : Str) (cl co : ℕ)
    (hcl : 0 < cl) (hco : co < cl)
    (hnb : ∀ l ∈ splitLines content, trimStr l ≠ []) :
    ((chunkDocument docPath content cl co).map (fun c => c.lineStart) =
      (List.range (chunkDocument docPath content cl co).length).map
        (fun i => 1 + (cl - co) * i)) ∧
    ((chunkDocument docPath content cl co).map (fun c => c.lineEnd)).getLast?
      = some (splitLines content).length := by
  have h0 : 0 < (splitLines content).length := by
    cases h : splitLines content with
    | nil => exact absurd h (splitLines_ne_nil content)
    | cons x xs => simp
  have hmain := chunkLoop_nonblank docPath (extractAccession docPath)
    (splitLines content) cl co hcl hco hnb (splitLines content).length 0 h0 (by omega)
  simpa [chunkDocument] using hmain

/-- Witness for C3: a three-line document, window 2, overlap 1. -/
theorem chunkDocument_line_ranges_witness :
    0 < 2 ∧ 1 < 2 ∧
    (∀ l ∈ splitLines ("alpha\nbravo\ncharlie".toList), trimStr l ≠ []) ∧
    (((chunkDocument "doc.md" ("alpha\nbravo\ncharlie".toList) 2 1).map
        (fun c => c.lineStart) =
      (List.range (chunkDocument "doc.md" ("alpha\nbravo\ncharlie".toList) 2 1).length).map
        (fun i => 1 + (2 - 1) * i)) ∧
    (((chunkDocument "doc.md" ("alpha\nbravo\ncharlie".toList) 2 1).map
        (fun c => c.lineEnd)).getLast? = some (splitLines ("alpha\nbravo\ncharlie".toList)).length)) :=
  ⟨by decide, by decide, by decide,
    chunkDocument_line_ranges "doc.md" ("alpha\nbravo\ncharlie".toList) 2 1
      (by decide) (by decide) (by decide)⟩

end Edgar

namespace Edgar

theorem foldl_add_map_sum {α : Type} (g : α → ℝ) :
    ∀ (l : List α) (init : ℝ), l.foldl (fun s t => s + g t) init = init + (l.map g).sum := by
  intro l
  induction l with
  | nil => intro init; simp
  | cons x xs ih =>
    intro init
    rw [List.foldl_cons, ih, List.map_cons, List.sum_cons, add_assoc]

theorem bm25Score_eq_sum (queryTerms : List Str) (chunk : Chunk)
    (dfMap : Str → ℕ) (n : ℕ) (avg : ℝ) :
    bm25Score queryTerms chunk dfMap n avg =
      (queryTerms.map (fun term =>
        if chunk.termFrequency term = 0 then 0
        else
          Real.log (1 + ((n : ℝ) - (dfMap term : ℝ) + 0.5) / ((dfMap term : ℝ) + 0.5)) *
            (((chunk.termFrequency term : ℝ) * (bm25K1 + 1)) /
              ((chunk.termFrequency term : ℝ) +
                bm25K1 * (1 - bm25B + bm25B *
                  (if 0 < avg then (chunk.tokenCount : ℝ) / avg else 1)))))).sum := by
  have h := foldl_add_map_sum (fun term =>
    if chunk.termFrequency term = 0 then (0 : ℝ)
    else
      Real.log (1 + ((n : ℝ) - (dfMap term : ℝ) + 0.5) / ((dfMap term : ℝ) + 0.5)) *
        (((chunk.termFrequency term : ℝ) * (bm25K1 + 1)) /
          ((chunk.termFrequency term : ℝ) +
            bm25K1 * (1 - bm25B + bm25B *
              (if 0 < avg then (chunk.tokenCount : ℝ) / avg else 1)))))
    queryTerms 0
  rw [zero_add] at h
  rw [← h]
  unfold bm25Score
  congr 1
  funext score term
  by_cases htf : chunk.termFrequency term = 0 <;> simp [htf]

end Edgar

namespace Edgar

/-- C1: for every chunk and query evaluation with a positive average token
count, the BM25 base score equals the sum over the query terms of the spec's
per-term contribution: terms absent from the chunk (tf = 0) contribute 0, and
present terms contribute
`idf * (tf*(k1+1)) / (tf + k1*(1 - b + b*(chunk_tokens/avg_tokens)))` with
`idf = ln(1 + (N - df + 0.5)/(df + 0.5))`, `k1 = 1.2`, `b = 0.75`. -/
theorem bm25Score_matches_spec_formula (queryTerms : List Str) (chunk : Chunk)
    (dfMap : Str → ℕ) (n : ℕ) (avg : ℝ) (havg : 0 < avg) :
    bm25Score queryTerms chunk dfMap n avg =
      (queryTerms.map (fun term =>
        specBm25TermContribution (chunk.termFrequency term) (dfMap term) n
          chunk.tokenCount avg)).sum := by
  rw [bm25Score_eq_sum]
  apply congrArg List.sum
  apply List.map_congr_left
  intro term _
  by_cases htf : chunk.termFrequency term = 0 <;>
    simp [specBm25TermContribution, htf, havg, bm25K1, bm25B]

/-- Witness for C1 at a concrete chunk and query. -/
theorem bm25Score_matches_spec_formula_witness :
    (0 : ℝ) < 1 ∧
    bm25Score [['a', 'b']]
        { docPath := "d", accession := none, lineStart := 1, lineEnd := 1,
          text := ['a', 'b'], tokenCount := 2,
          termFrequency := fun t => if t = ['a', 'b'] then 1 else 0 }
        (fun _ => 1) 3 1 =
      ([['a', 'b']].map (fun term =>
        specBm25TermContribution
          (if term = ['a', 'b'] then 1 else 0) 1 3 2 1)).sum :=
  ⟨by norm_num,
    bm25Score_matches_spec_formula [['a', 'b']]
      { docPath := "d", accession := none, lineStart := 1, lineEnd := 1,
        text := ['a', 'b'], tokenCount := 2,
        termFrequency := fun t => if t = ['a', 'b'] then 1 else 0 }
      (fun _ => 1) 3 1 (by norm_num)⟩

end Edgar

namespace Edgar

theorem bm25_term_monotone (x y df n tok : ℕ) (avg : ℝ)
    (hx : 1 ≤ x) (hxy : x ≤ y) (hdf : df ≤ n) :
    Real.log (1 + ((n : ℝ) - (df : ℝ) + 0.5) / ((df : ℝ) + 0.5)) *
        (((x : ℕ) : ℝ) * (bm25K1 + 1) /
          (((x : ℕ) : ℝ) + bm25K1 * (1 - bm25B + bm25B *
            (if 0 < avg then ((tok : ℕ) : ℝ) / avg else 1)))) ≤
      Real.log (1 + ((n : ℝ) - (df : ℝ) + 0.5) / ((df : ℝ) + 0.5)) *
        (((y : ℕ) : ℝ) * (bm25K1 + 1) /
          (((y : ℕ) : ℝ) + bm25K1 * (1 - bm25B + bm25B *
            (if 0 < avg then ((tok : ℕ) : ℝ) / avg else 1)))) := by
  have hxR : (1 : ℝ) ≤ (x : ℝ) := by exact_mod_cast hx
  have hxyR : ((x : ℕ) : ℝ) ≤ (y : ℝ) := by exact_mod_cast hxy
  have hL : 0 ≤ Real.log (1 + ((n : ℝ) - (df : ℝ) + 0.5) / ((df : ℝ) + 0.5)) := by
    apply Real.log_nonneg
    have hnum : (0 : ℝ) ≤ (n : ℝ) - (df : ℝ) + 0.5 := by
      have : ((df : ℕ) : ℝ) ≤ (n : ℝ) := by exact_mod_cast hdf
      linarith
    have hden : (0 : ℝ) < (df : ℝ) + 0.5 := by positivity
    have := div_nonneg hnum hden.le
    linarith
  have hnl : (0 : ℝ) ≤ (if 0 < avg then ((tok : ℕ) : ℝ) / avg else 1) := by
    by_cases havg : 0 < avg
    · simp only [if_pos havg]
      exact div_nonneg (Nat.cast_nonneg tok) havg.le
    · simp only [if_neg havg]
      norm_num
  set nl := (if 0 < avg then ((tok : ℕ) : ℝ) / avg else 1) with hnldef
  have hD : (0 : ℝ) < bm25K1 * (1 - bm25B + bm25B * nl) := by
    rw [bm25K1, bm25B]
    nlinarith
  apply mul_le_mul_of_nonneg_left ?_ hL
  rw [div_le_div_iff₀ (by linarith) (by linarith)]
  have hk : (0 : ℝ) < bm25K1 + 1 := by rw [bm25K1]; norm_num
  nlinarith [mul_nonneg (sub_nonneg.mpr hxyR) hD.le]

/-- C5: for any chunk and any query term with positive frequency, increasing
that term's frequency while holding every other input fixed (the document
frequency map, the chunk token count, the average token count, the total
chunk count, and all other term frequencies) never decreases the BM25 base
score. `hdf` records that the document frequency of a term never exceeds the
candidate-chunk count, which holds by construction of the corpus statistics. -/
theorem bm25Score_tf_monotone (queryTerms : List Str) (t : Str) (c c' : Chunk)
    (dfMap : Str → ℕ) (n : ℕ) (avg : ℝ)
    (htok : c'.tokenCount = c.tokenCount)
    (hagree : ∀ s, s ≠ t → c'.termFrequency s = c.termFrequency s)
    (h1 : 1 ≤ c.termFrequency t)
    (h2 : c.termFrequency t ≤ c'.termFrequency t)
    (hdf : dfMap t ≤ n) :
    bm25Score queryTerms c dfMap n avg ≤ bm25Score queryTerms c' dfMap n avg := by
  rw [bm25Score_eq_sum, bm25Score_eq_sum]
  apply List.sum_le_sum
  intro term _
  by_cases hst : term = t
  · subst hst
    have htf : ¬ c.termFrequency term = 0 := by omega
    have htf' : ¬ c'.termFrequency term = 0 := by omega
    rw [if_neg htf, if_neg htf', htok]
    exact bm25_term_monotone (c.termFrequency term) (c'.termFrequency term)
      (dfMap term) n c.tokenCount avg h1 h2 hdf
  · rw [hagree term hst, htok]

/-- Witness for C5: the same chunk with term frequency 1 and 3. -/
theorem bm25Score_tf_monotone_witness :
    ({ docPath := "d", accession := none, lineStart := 1, lineEnd := 1,
       text := ['a', 'b'], tokenCount := 2,
       termFrequency := fun t => if t = ['a', 'b'] then 3 else 0 : Chunk}).tokenCount =
      ({ docPath := "d", accession := none, lineStart := 1, lineEnd := 1,
         text := ['a', 'b'], tokenCount := 2,
         termFrequency := fun t => if t = ['a', 'b'] then 1 else 0 : Chunk}).tokenCount ∧
    bm25Score [['a', 'b']]
        { docPath := "d", accession := none, lineStart := 1, lineEnd := 1,
          text := ['a', 'b'], tokenCount := 2,
          termFrequency := fun t => if t = ['a', 'b'] then 1 else 0 }
        (fun _ => 1) 3 1 ≤
      bm25Score [['a', 'b']]
        { docPath := "d", accession := none, lineStart := 1, lineEnd := 1,
          text := ['a', 'b'], tokenCount := 2,
          termFrequency := fun t => if t = ['a', 'b'] then 3 else 0 }
        (fun _ => 1) 3 1 :=
  ⟨rfl,
    bm25Score_tf_monotone [['a', 'b']] (['a', 'b'])
      { docPath := "d", accession := none, lineStart := 1, lineEnd := 1,
        text := ['a', 'b'], tokenCount := 2,
        termFrequency := fun t => if t = ['a', 'b'] then 1 else 0 }
      { docPath := "d", accession := none, lineStart := 1, lineEnd := 1,
        text := ['a', 'b'], tokenCount := 2,
        termFrequency := fun t => if t = ['a', 'b'] then 3 else 0 }
      (fun _ => 1) 3 1 rfl
      (by intro s hs; simp only; rw [if_neg, if_neg] <;> simpa using hs)
      (by simp) (by simp) (by norm_num)⟩

end Edgar

namespace Edgar

theorem pair_sublist_or {α : Type} {a b : α} {l : List α}
    (ha : a ∈ l) (hb : b ∈ l) (hne : a ≠ b) :
    [a, b].Sublist l ∨ [b, a].Sublist l := by
  induction l with
  | nil => simp at ha
  | cons x xs ih =>
    by_cases hax : a = x
    · subst hax
      have hbxs : b ∈ xs := by
        rcases List.mem_cons.mp hb with h | h
        · exact absurd h.symm hne
        · exact h
      exact Or.inl (List.Sublist.cons₂ a (List.singleton_sublist.mpr hbxs))
    · by_cases hbx : b = x
      · subst hbx
        have haxs : a ∈ xs := by
          rcases List.mem_cons.mp ha with h | h
          · exact absurd h hax
          · exact h
        exact Or.inr (List.Sublist.cons₂ b (List.singleton_sublist.mpr haxs))
      · have haxs : a ∈ xs := by
          rcases List.mem_cons.mp ha with h | h
          · exact absurd h hax
          · exact h
        have hbxs : b ∈ xs := by
          rcases List.mem_cons.mp hb with h | h
          · exact absurd h hbx
          · exact h
        rcases ih haxs hbxs with h | h
        · exact Or.inl (h.cons x)
        · exact Or.inr (h.cons x)

theorem pair_sublist_antisymm {α : Type} {a b : α} {l : List α}
    (hnd : l.Nodup) (h1 : [a, b].Sublist l) (h2 : [b, a].Sublist l) : a = b := by
  induction l with
  | nil => simp at h1
  | cons x xs ih =>
    rw [List.nodup_cons] at hnd
    rcases List.sublist_cons_iff.mp h1 with h1' | ⟨r1, hr1, hs1⟩
    · rcases List.sublist_cons_iff.mp h2 with h2' | ⟨r2, hr2, hs2⟩
      · exact ih hnd.2 h1' h2'
      · have hbx : b = x := (List.cons_eq_cons.mp hr2).1
        have hbxs : b ∈ xs := h1'.subset (by simp)
        rw [hbx] at hbxs
        exact absurd hbxs hnd.1
    · rcases List.sublist_cons_iff.mp h2 with h2' | ⟨r2, hr2, hs2⟩
      · have hax : a = x := (List.cons_eq_cons.mp hr1).1
        have haxs : a ∈ xs := h2'.subset (by simp)
        rw [hax] at haxs
        exact absurd haxs hnd.1
      · have hax : a = x := (List.cons_eq_cons.mp hr1).1
        have hbx : b = x := (List.cons_eq_cons.mp hr2).1
        rw [hax, hbx]

theorem mergeSort_pairwise_stable {α : Type} (le : α → α → Bool) (R : α → α → Prop)
    (htrans : ∀ a b c, le a b = true → le b c = true → le a c = true)
    (htotal : ∀ a b, (le a b || le b a) = true)
    (hirr : ∀ x, ¬ R x x)
    {l : List α} (hl : l.Pairwise R) :
    (l.mergeSort le).Pairwise (fun a b => le a b = true ∧ (le b a = true → R a b)) := by
  have hsorted := List.sorted_mergeSort htrans htotal l
  have hndl : l.Nodup := by
    have hne : ∀ {u v : α}, R u v → u ≠ v := by
      intro u v h heq
      subst heq
      exact hirr u h
    exact List.Pairwise.imp hne hl
  have hndm : (l.mergeSort le).Nodup := ((List.mergeSort_perm l le).nodup_iff).mpr hndl
  rw [List.pairwise_iff_forall_sublist]
  intro a b hsub
  have hle : le a b = true := List.pairwise_iff_forall_sublist.mp hsorted hsub
  refine ⟨hle, fun hba => ?_⟩
  have hne : a ≠ b := by
    rintro rfl
    exact (List.pairwise_iff_forall_sublist.mp hndm hsub) rfl
  have ham : a ∈ l := (List.mem_mergeSort).mp (hsub.subset (by simp))
  have hbm : b ∈ l := (List.mem_mergeSort).mp (hsub.subset (by simp))
  rcases pair_sublist_or ham hbm hne with hpair | hpair
  · exact List.pairwise_iff_forall_sublist.mp hl hpair
  · have hms : [b, a].Sublist (l.mergeSort le) :=
      List.pair_sublist_mergeSort htrans htotal hba hpair
    exact absurd (pair_sublist_antisymm hndm hsub hms) hne

end Edgar

namespace Edgar

/-- C4: after scoring, chunks with adjusted score ≤ 0 are discarded, survivors
are sorted descending by score with ties broken by original discovery order
(recorded in `idx`: document order, then line order), and the list is
truncated to at most `top_k` entries. The final conjunct states that a
positive-score chunk is left out only by the `top_k` truncation. -/
theorem rankScored_spec (scored : List ScoredChunk) (topK : ℕ)
    (hidx : scored.Pairwise (fun a b => a.idx < b.idx)) :
    (rankScored scored topK).length ≤ topK ∧
    (∀ s ∈ rankScored scored topK, 0 < s.score) ∧
    (∀ s ∈ rankScored scored topK, s ∈ scored) ∧
    (rankScored scored topK).Pairwise
      (fun a b => b.score ≤ a.score ∧ (a.score ≤ b.score → a.idx < b.idx)) ∧
    ((rankScored scored topK).length < topK →
      ∀ s ∈ scored, 0 < s.score → s ∈ rankScored scored topK) := by
  have htrans : ∀ a b c : ScoredChunk, scoreSortLe a b = true → scoreSortLe b c = true →
      scoreSortLe a c = true := by
    intro a b c h1 h2
    simp only [scoreSortLe, decide_eq_true_eq] at h1 h2 ⊢
    exact le_trans h2 h1
  have htotal : ∀ a b : ScoredChunk, (scoreSortLe a b || scoreSortLe b a) = true := by
    intro a b
    simp only [scoreSortLe, Bool.or_eq_true, decide_eq_true_eq]
    exact le_total b.score a.score
  have hfilter : (scored.filter (fun s => decide (0 < s.score))).Pairwise
      (fun a b => a.idx < b.idx) :=
    List.Pairwise.sublist (List.filter_sublist scored) hidx
  have hirr : ∀ x : ScoredChunk, ¬ x.idx < x.idx := fun x => lt_irrefl _
  have hstable := mergeSort_pairwise_stable scoreSortLe (fun a b => a.idx < b.idx)
    htrans htotal hirr hfilter
  refine ⟨?_, ?_, ?_, ?_, ?_⟩
  · rw [rankScored, List.length_take]
    exact min_le_left _ _
  · intro s hs
    have h1 : s ∈ (scored.filter (fun s => decide (0 < s.score))).mergeSort scoreSortLe :=
      List.mem_of_mem_take (by simpa [rankScored] using hs)
    have h2 : s ∈ scored.filter (fun s => decide (0 < s.score)) := List.mem_mergeSort.mp h1
    simpa using List.of_mem_filter h2
  · intro s hs
    have h1 : s ∈ (scored.filter (fun s => decide (0 < s.score))).mergeSort scoreSortLe :=
      List.mem_of_mem_take (by simpa [rankScored] using hs)
    have h2 : s ∈ scored.filter (fun s => decide (0 < s.score)) := List.mem_mergeSort.mp h1
    exact List.mem_of_mem_filter h2
  · have htake : (rankScored scored topK).Pairwise
        (fun a b => scoreSortLe a b = true ∧ (scoreSortLe b a = true → a.idx < b.idx)) := by
      refine List.Pairwise.sublist ?_ hstable
      rw [rankScored]
      exact List.take_sublist _ _
    refine List.Pairwise.imp ?_ htake
    intro a b h
    refine ⟨by simpa [scoreSortLe] using h.1, fun hab => h.2 (by simpa [scoreSortLe] using hab)⟩
  · intro hlen s hs hpos
    have hlenm : ((scored.filter (fun s => decide (0 < s.score))).mergeSort scoreSortLe).length
        < topK := by
      rw [rankScored, List.length_take] at hlen
      omega
    have heq : rankScored scored topK =
        (scored.filter (fun s => decide (0 < s.score))).mergeSort scoreSortLe := by
      rw [rankScored]
      exact List.take_of_length_le (by omega)
    rw [heq]
    exact List.mem_mergeSort.mpr (List.mem_filter.mpr ⟨hs, by simpa using hpos⟩)

/-- Witness for C4 on a concrete two-element scored list. -/
theorem rankScored_spec_witness :
    ([({ idx := 0,
         chunk := { docPath := "d", accession := none, lineStart := 1, lineEnd := 1,
                    text := [], tokenCount := 0, termFrequency := fun _ => 0 },
         score := (2 : ℝ) } : ScoredChunk),
      ({ idx := 1,
         chunk := { docPath := "d", accession := none, lineStart := 2, lineEnd := 2,
                    text := [], tokenCount := 0, termFrequency := fun _ => 0 },
         score := (1 : ℝ) } : ScoredChunk)].Pairwise (fun a b => a.idx < b.idx)) ∧
    (rankScored
      [({ idx := 0,
          chunk := { docPath := "d", accession := none, lineStart := 1, lineEnd := 1,
                     text := [], tokenCount := 0, termFrequency := fun _ => 0 },
          score := (2 : ℝ) } : ScoredChunk),
       ({ idx := 1,
          chunk := { docPath := "d", accession := none, lineStart := 2, lineEnd := 2,
                     text := [], tokenCount := 0, termFrequency := fun _ => 0 },
          score := (1 : ℝ) } : ScoredChunk)] 5).length ≤ 5 := by
  constructor
  · simp [List.pairwise_cons]
  · exact (rankScored_spec _ 5 (by simp [List.pairwise_cons])).1

end Edgar

namespace Edgar

/-- Counterexample to C2 as stated: the query `"a?"` derives an empty
QueryTerms set, yet when the supplied candidate chunk set is empty (here: one
document whose content is empty) `runLexicalSearch` returns a successful
empty result set instead of failing — the empty-corpus early return runs
before query terms are ever derived. -/
theorem runLexicalSearch_emptyTerms_counterexample :
    buildQueryTerms (trimStr ("a?".toList)) = [] ∧
    (runLexicalSearch ("a?".toList) [{ path := "doc.md", content := [] }] 5 20 5).isOk
      = true :=
  ⟨rfl, rfl⟩

/-- C2 amended: a query whose derived QueryTerms set is empty makes
`runLexicalSearch` fail with a validation error provided the candidate chunk
set is non-empty; when the candidate chunk set is empty the search instead
returns an empty result set (the spec's own empty-corpus edge case). -/
theorem runLexicalSearch_emptyTerms_fails (query : Str) (docInputs : List DocInput)
    (topK chunkLines chunkOverlap : ℕ)
    (hq : ¬ (trimStr query).length = 0)
    (hov : chunkOverlap < chunkLines)
    (hchunks : ¬ (allChunksOf docInputs chunkLines chunkOverlap).length = 0)
    (hterms : buildQueryTerms (trimStr query) = []) :
    runLexicalSearch query docInputs topK chunkLines chunkOverlap =
      .error ⟨.VALIDATION_ERROR, "Query must contain at least one alphanumeric token"⟩ := by
  simp only [runLexicalSearch]
  rw [if_neg hq, if_neg (by omega : ¬ chunkLines ≤ chunkOverlap), if_neg hchunks, hterms]
  simp

/-- Witness for the amended C2: query `"a?"` over a non-empty corpus. -/
theorem runLexicalSearch_emptyTerms_fails_witness :
    ¬ (trimStr ("a?".toList)).length = 0 ∧ 5 < 20 ∧
    ¬ (allChunksOf [{ path := "doc.md", content := ("hello world".toList) }] 20 5).length = 0 ∧
    buildQueryTerms (trimStr ("a?".toList)) = [] ∧
    runLexicalSearch ("a?".toList)
        [{ path := "doc.md", content := ("hello world".toList) }] 4 20 5 =
      .error ⟨.VALIDATION_ERROR, "Query must contain at least one alphanumeric token"⟩ :=
  ⟨by decide, by decide, by decide, by decide,
    runLexicalSearch_emptyTerms_fails ("a?".toList)
      [{ path := "doc.md", content := ("hello world".toList) }] 4 20 5
      (by decide) (by decide) (by decide) (by decide)⟩

end Edgar

namespace Edgar

theorem decodeCachedDoc_roundTrip (d : CachedDoc) :
    decodeCachedDoc (cachedDocToJson d) = some d := by
  obtain ⟨acc, form, fd, rd, fu, path⟩ := d
  cases form <;> cases fd <;> cases rd <;> cases fu <;> rfl

theorem decodeCachedDocs_roundTrip (ds : List CachedDoc) :
    decodeCachedDocs (ds.map cachedDocToJson) = some ds := by
  induction ds with
  | nil => rfl
  | cons d ds ih => simp [decodeCachedDocs, decodeCachedDoc_roundTrip, ih]

/-- C6: writing a manifest through the Cache/Manifest Store and reading it
back for the same (entity, profile) yields an equivalent record — in fact the
identical record: same cik, same profile, and the same descriptor list (same
accessions, paths and forms in the same order). The store always writes
`version := 1`. -/
theorem parseCachedManifest_roundTrip (m : CachedManifest) (hv : m.version = 1) :
    parseCachedManifest (manifestToJson m) = .ok m := by
  obtain ⟨v, idi, cik, ticker, title, prof, syn, docs⟩ := m
  simp only at hv
  subst hv
  cases ticker <;> cases title <;>
    simp [parseCachedManifest, manifestToJson, Json.lookup, List.lookup,
      asOptString, optStrJson, decodeCachedDocs_roundTrip]

/-- Witness for C6 at a concrete manifest. -/
theorem parseCachedManifest_roundTrip_witness :
    ({ version := 1, id_input := "AAPL", cik := "0000320193",
       ticker := some "AAPL", title := some "Apple Inc.", profile := "core",
       synced_at := "2025-01-01T00:00:00Z",
       docs := [{ accession := "0000320193-25-000001", form := some "10-K",
                  filing_date := some "2025-01-01", report_date := none,
                  filing_url := none,
                  path := "/cache/research/companies/0000320193/filings/0000320193-25-000001.md" }]
       : CachedManifest }).version = 1 ∧
    parseCachedManifest (manifestToJson
      { version := 1, id_input := "AAPL", cik := "0000320193",
        ticker := some "AAPL", title := some "Apple Inc.", profile := "core",
        synced_at := "2025-01-01T00:00:00Z",
        docs := [{ accession := "0000320193-25-000001", form := some "10-K",
                   filing_date := some "2025-01-01", report_date := none,
                   filing_url := none,
                   path := "/cache/research/companies/0000320193/filings/0000320193-25-000001.md" }] }) =
      .ok { version := 1, id_input := "AAPL", cik := "0000320193",
            ticker := some "AAPL", title := some "Apple Inc.", profile := "core",
            synced_at := "2025-01-01T00:00:00Z",
            docs := [{ accession := "0000320193-25-000001", form := some "10-K",
                       filing_date := some "2025-01-01", report_date := none,
                       filing_url := none,
                       path := "/cache/research/companies/0000320193/filings/0000320193-25-000001.md" }] } :=
  ⟨rfl, parseCachedManifest_roundTrip _ rfl⟩

/-- Counterexample to C7 as stated: a well-formed JSON object with a wrong
version tag fails with `ErrorCode.PARSE_ERROR` — the same class used for
non-JSON content — not with the distinct `ErrorCode.VALIDATION_ERROR` the
claim requires. -/
theorem parseCachedManifest_errorCode_counterexample :
    parseCachedManifest (Json.obj [("version", Json.num 2),
        ("cik", Json.str "0000320193"), ("docs", Json.arr [])]) =
      .error ⟨.PARSE_ERROR, "Cached manifest is malformed"⟩ ∧
    ErrorCode.PARSE_ERROR ≠ ErrorCode.VALIDATION_ERROR :=
  ⟨rfl, by decide⟩

/-- C7 amended: reading well-formed JSON that is missing required fields (a
docs entry without a path or accession, a missing cik) or carries a wrong
version tag fails with the parse-error code (`ErrorCode.PARSE_ERROR`) and the
message `Cached manifest is malformed` — the same error class the store uses
for non-JSON content, not a distinct validation error. -/
theorem parseCachedManifest_error_is_parse_error (j : Json) (e : CLIError)
    (h : parseCachedManifest j = .error e) :
    e = ⟨.PARSE_ERROR, "Cached manifest is malformed"⟩ := by
  unfold parseCachedManifest at h
  split at h
  · split at h
    · simp at h
    · injection h with h1
      exact h1.symm
  · injection h with h1
    exact h1.symm

/-- Witness for the amended C7: a manifest object missing `cik` and `docs`. -/
theorem parseCachedManifest_error_is_parse_error_witness :
    parseCachedManifest (Json.obj [("version", Json.num 1)]) =
      .error ⟨.PARSE_ERROR, "Cached manifest is malformed"⟩ ∧
    (⟨.PARSE_ERROR, "Cached manifest is malformed"⟩ : CLIError) =
      ⟨.PARSE_ERROR, "Cached manifest is malformed"⟩ :=
  ⟨rfl, parseCachedManifest_error_is_parse_error (Json.obj [("version", Json.num 1)]) _ rfl⟩

end Edgar

namespace Edgar

theorem foldl_insertRow_flatten (ruleRows : List (List FilingRow)) :
    ∀ acc : List FilingRow,
      ruleRows.foldl (fun sel rows => rows.foldl insertRow sel) acc =
        ruleRows.flatten.foldl insertRow acc := by
  induction ruleRows with
  | nil => intro acc; rfl
  | cons x xs ih =>
    intro acc
    rw [List.foldl_cons, ih, List.flatten_cons, List.foldl_append]

theorem mergeSelection_eq_flatten (ruleRows : List (List FilingRow)) :
    mergeSelection ruleRows = ruleRows.flatten.foldl insertRow [] :=
  foldl_insertRow_flatten ruleRows []

theorem mem_insertRow {acc : List FilingRow} {x a : FilingRow}
    (ha : a ∈ acc) : a ∈ insertRow acc x := by
  unfold insertRow
  by_cases hany : acc.any fun q => q.accession == x.accession
  · rw [if_pos hany]; exact ha
  · rw [if_neg hany]; exact List.mem_append_left _ ha

theorem foldl_insertRow_mem_find (l : List FilingRow) :
    ∀ (acc : List FilingRow) (r : FilingRow), r ∈ l.foldl insertRow acc →
      r ∈ acc ∨ (r ∈ l ∧ (∀ a ∈ acc, ¬ a.accession = r.accession) ∧
        l.find? (fun x => x.accession == r.accession) = some r) := by
  induction l with
  | nil => intro acc r h; exact Or.inl h
  | cons x xs ih =>
    intro acc r h
    rw [List.foldl_cons] at h
    rcases ih (insertRow acc x) r h with hin | ⟨hmem, hfresh, hfind⟩
    · unfold insertRow at hin
      by_cases hany : acc.any fun q => q.accession == x.accession
      · rw [if_pos hany] at hin
        exact Or.inl hin
      · rw [if_neg hany] at hin
        rcases List.mem_append.mp hin with hin | hin
        · exact Or.inl hin
        · have hrx : r = x := by simpa using hin
          subst hrx
          refine Or.inr ⟨List.mem_cons_self _ _, ?_, ?_⟩
          · intro a ha heq
            exact hany (List.any_eq_true.mpr ⟨a, ha, by simp [heq]⟩)
          · simp [List.find?_cons]
    · refine Or.inr ⟨List.mem_cons_of_mem x hmem, ?_, ?_⟩
      · intro a ha
        exact hfresh a (mem_insertRow ha)
      · have hpx : (x.accession == r.accession) = false := by
          by_cases hany : acc.any fun q => q.accession == x.accession
          · obtain ⟨a, ha, haeq⟩ := List.any_eq_true.mp hany
            simp only [beq_iff_eq] at haeq
            have hne : ¬ a.accession = r.accession := hfresh a (mem_insertRow ha)
            simp only [beq_eq_false_iff_ne, ne_eq]
            intro hxr
            exact hne (haeq.trans hxr)
          · have hx : x ∈ insertRow acc x := by
              unfold insertRow
              rw [if_neg hany]
              exact List.mem_append_right _ (by simp)
            have := hfresh x hx
            simp only [beq_eq_false_iff_ne, ne_eq]
            exact this
        rw [List.find?_cons, hpx]
        exact hfind

theorem foldl_insertRow_nodup (l : List FilingRow) :
    ∀ acc : List FilingRow, (acc.map (fun r => r.accession)).Nodup →
      ((l.foldl insertRow acc).map (fun r => r.accession)).Nodup := by
  induction l with
  | nil => intro acc h; exact h
  | cons x xs ih =>
    intro acc h
    rw [List.foldl_cons]
    apply ih
    unfold insertRow
    by_cases hany : acc.any fun q => q.accession == x.accession
    · rw [if_pos hany]; exact h
    · rw [if_neg hany]
      rw [List.map_append, List.nodup_append]
      refine ⟨h, by simp, ?_⟩
      intro a ha hb
      simp only [List.map_cons, List.map_nil, List.mem_cons, List.not_mem_nil, or_false] at hb
      subst hb
      obtain ⟨q, hq, hqe⟩ := List.mem_map.mp ha
      exact hany (List.any_eq_true.mpr ⟨q, hq, by simp [hqe]⟩)

theorem foldl_insertRow_keys_mono (l : List FilingRow) :
    ∀ (acc : List FilingRow) (k : String), k ∈ acc.map (fun r => r.accession) →
      k ∈ (l.foldl insertRow acc).map (fun r => r.accession) := by
  induction l with
  | nil => intro acc k h; exact h
  | cons x xs ih =>
    intro acc k h
    rw [List.foldl_cons]
    apply ih
    unfold insertRow
    by_cases hany : acc.any fun q => q.accession == x.accession
    · rw [if_pos hany]; exact h
    · rw [if_neg hany]
      rw [List.map_append]
      exact List.mem_append_left _ h

theorem foldl_insertRow_complete (l : List FilingRow) :
    ∀ (acc : List FilingRow) (x : FilingRow), x ∈ l →
      x.accession ∈ (l.foldl insertRow acc).map (fun r => r.accession) := by
  induction l with
  | nil => intro acc x h; simp at h
  | cons y ys ih =>
    intro acc x h
    rw [List.foldl_cons]
    rcases List.mem_cons.mp h with rfl | hmem
    · apply foldl_insertRow_keys_mono
      unfold insertRow
      by_cases hany : acc.any fun q => q.accession == x.accession
      · rw [if_pos hany]
        obtain ⟨q, hq, hqe⟩ := List.any_eq_true.mp hany
        simp only [beq_iff_eq] at hqe
        exact List.mem_map.mpr ⟨q, hq, hqe⟩
      · rw [if_neg hany]
        rw [List.map_append]
        exact List.mem_append_right _ (by simp)
    · exact ih _ x hmem

theorem empty_string_le (s : String) : "" ≤ s := by
  rw [String.le_iff_toList_le]
  exact List.nil_le

end Edgar

namespace Edgar

/-- C8: rules are applied in profile order and filings are merged into a
single selection keyed by accession id, where the first rule (first row) to
introduce an accession wins — later rows never overwrite an already-selected
entry (each selected row is the `find?`-first row for its accession over the
concatenated rule results, selected accessions are pairwise distinct, and
every listed accession is represented); the final selection is sorted
descending by filing date under lexicographic string comparison, a missing
filing date being treated as the empty string and therefore sorting last. -/
theorem selectRows_spec (ruleRows : List (List FilingRow)) :
    (∀ r ∈ selectRows ruleRows,
      ruleRows.flatten.find? (fun x => x.accession == r.accession) = some r) ∧
    ((selectRows ruleRows).map (fun r => r.accession)).Nodup ∧
    (∀ x ∈ ruleRows.flatten, ∃ r ∈ selectRows ruleRows, r.accession = x.accession) ∧
    (selectRows ruleRows).Pairwise (fun a b => filingDateKey b ≤ filingDateKey a) ∧
    (∀ a b : FilingRow, [a, b].Sublist (selectRows ruleRows) → a.filingDate = none →
      filingDateKey b = "") := by
  have htrans : ∀ a b c : FilingRow,
      (decide (filingDateKey b ≤ filingDateKey a)) = true →
      (decide (filingDateKey c ≤ filingDateKey b)) = true →
      (decide (filingDateKey c ≤ filingDateKey a)) = true := by
    intro a b c h1 h2
    simp only [decide_eq_true_eq] at h1 h2 ⊢
    exact le_trans h2 h1
  have htotal : ∀ a b : FilingRow,
      ((decide (filingDateKey b ≤ filingDateKey a)) ||
        (decide (filingDateKey a ≤ filingDateKey b))) = true := by
    intro a b
    simp only [Bool.or_eq_true, decide_eq_true_eq]
    exact le_total _ _
  have hperm : (selectRows ruleRows).Perm (mergeSelection ruleRows) :=
    List.mergeSort_perm (mergeSelection ruleRows) _
  have hsorted := List.sorted_mergeSort htrans htotal (mergeSelection ruleRows)
  refine ⟨?_, ?_, ?_, ?_, ?_⟩
  · intro r hr
    have hr' : r ∈ mergeSelection ruleRows := hperm.mem_iff.mp hr
    rw [mergeSelection_eq_flatten] at hr'
    rcases foldl_insertRow_mem_find ruleRows.flatten [] r hr' with hin | ⟨_, _, hfind⟩
    · simp at hin
    · exact hfind
  · have h0 := foldl_insertRow_nodup ruleRows.flatten [] (by simp)
    rw [← mergeSelection_eq_flatten] at h0
    exact ((hperm.map (fun r => r.accession)).nodup_iff).mpr h0
  · intro x hx
    have hk := foldl_insertRow_complete ruleRows.flatten [] x hx
    rw [← mergeSelection_eq_flatten] at hk
    obtain ⟨r, hr, hre⟩ := List.mem_map.mp hk
    exact ⟨r, hperm.mem_iff.mpr hr, hre⟩
  · refine List.Pairwise.imp ?_ hsorted
    intro a b h
    simpa using h
  · intro a b hsub hnone
    have hle := List.pairwise_iff_forall_sublist.mp hsorted hsub
    simp only [decide_eq_true_eq] at hle
    have h1 : filingDateKey a = "" := by simp [filingDateKey, hnone]
    rw [h1] at hle
    exact le_antisymm hle (empty_string_le _)

/-- Witness for C8 on two single-row rules. -/
theorem selectRows_spec_witness :
    (∀ r ∈ selectRows
        [[({ accession := "0000000001-25-000001", form := some "10-K",
             filingDate := some "2025-01-02", reportDate := none,
             filingUrl := none } : FilingRow)],
         [({ accession := "0000000002-25-000002", form := some "8-K",
             filingDate := some "2025-01-05", reportDate := none,
             filingUrl := none } : FilingRow)]],
      ([[({ accession := "0000000001-25-000001", form := some "10-K",
            filingDate := some "2025-01-02", reportDate := none,
            filingUrl := none } : FilingRow)],
        [({ accession := "0000000002-25-000002", form := some "8-K",
            filingDate := some "2025-01-05", reportDate := none,
            filingUrl := none } : FilingRow)]] : List (List FilingRow)).flatten.find?
          (fun x => x.accession == r.accession) = some r) ∧
    ((selectRows
        [[({ accession := "0000000001-25-000001", form := some "10-K",
             filingDate := some "2025-01-02", reportDate := none,
             filingUrl := none } : FilingRow)],
         [({ accession := "0000000002-25-000002", form := some "8-K",
             filingDate := some "2025-01-05", reportDate := none,
             filingUrl := none } : FilingRow)]]).map (fun r => r.accession)).Nodup :=
  ⟨(selectRows_spec _).1, (selectRows_spec _).2.1⟩

end Edgar

namespace Edgar

theorem syncLoop_cons_useCache {env : SyncEnv} {cacheRoot cik : String} {refresh : Bool}
    {row : FilingRow} {rest : List FilingRow} {st : LoopState}
    (hc : (!refresh && env.existingFile (filingDocPath cacheRoot cik row.accession)) = true) :
    syncLoop env cacheRoot cik refresh (row :: rest) st =
      syncLoop env cacheRoot cik refresh rest
        { st with
          docs := st.docs ++ [mkCachedDoc row (filingDocPath cacheRoot cik row.accession)]
          reusedCount := st.reusedCount + 1 } := by
  simp only [syncLoop]
  rw [if_pos hc]

theorem syncLoop_cons_fetchSome {env : SyncEnv} {cacheRoot cik : String} {refresh : Bool}
    {row : FilingRow} {rest : List FilingRow} {st : LoopState} {content : String}
    (hc : (!refresh && env.existingFile (filingDocPath cacheRoot cik row.accession)) = false)
    (hf : env.fetchContent row.accession = .ok (some content)) :
    syncLoop env cacheRoot cik refresh (row :: rest) st =
      syncLoop env cacheRoot cik refresh rest
        { st with
          docs := st.docs ++ [mkCachedDoc row (filingDocPath cacheRoot cik row.accession)]
          fetchedCount := st.fetchedCount + 1 } := by
  simp only [syncLoop]
  rw [if_neg (by simp [hc]), hf]

theorem syncLoop_cons_fetchNone {env : SyncEnv} {cacheRoot cik : String} {refresh : Bool}
    {row : FilingRow} {rest : List FilingRow} {st : LoopState}
    (hc : (!refresh && env.existingFile (filingDocPath cacheRoot cik row.accession)) = false)
    (hf : env.fetchContent row.accession = .ok none) :
    syncLoop env cacheRoot cik refresh (row :: rest) st =
      .error ⟨.PARSE_ERROR,
        "Unable to parse markdown content for accession " ++ row.accession⟩ := by
  simp only [syncLoop]
  rw [if_neg (by simp [hc]), hf]

theorem syncLoop_cons_fetchNotFound {env : SyncEnv} {cacheRoot cik : String} {refresh : Bool}
    {row : FilingRow} {rest : List FilingRow} {st : LoopState} {e : CLIError}
    (hc : (!refresh && env.existingFile (filingDocPath cacheRoot cik row.accession)) = false)
    (hf : env.fetchContent row.accession = .error e) (hnf : e.code = .NOT_FOUND) :
    syncLoop env cacheRoot cik refresh (row :: rest) st =
      syncLoop env cacheRoot cik refresh rest
        { st with skipped := st.skipped ++ [(row.accession, e.message)] } := by
  simp only [syncLoop]
  rw [if_neg (by simp [hc]), hf]
  simp only [if_pos hnf]

theorem syncLoop_cons_fetchOtherError {env : SyncEnv} {cacheRoot cik : String}
    {refresh : Bool} {row : FilingRow} {rest : List FilingRow} {st : LoopState}
    {e : CLIError}
    (hc : (!refresh && env.existingFile (filingDocPath cacheRoot cik row.accession)) = false)
    (hf : env.fetchContent row.accession = .error e) (hnf : ¬ e.code = .NOT_FOUND) :
    syncLoop env cacheRoot cik refresh (row :: rest) st = .error e := by
  simp only [syncLoop]
  rw [if_neg (by simp [hc]), hf]
  simp only [if_neg hnf]

end Edgar

namespace Edgar

/-- C9: in the per-filing fetch loop, a content-fetch failure carrying the
`NOT_FOUND` code records the filing as skipped (with the error message as
reason) and continues with the next filing; a failure with any other code
aborts the loop and propagates, and an aborted loop makes the whole sync
return that error — no manifest is produced (the manifest exists only in the
`.ok` payload of `runResearchSync`). -/
theorem syncLoop_fetch_failure (env : SyncEnv) (cacheRoot cik : String) (refresh : Bool)
    (row : FilingRow) (rest : List FilingRow) (st : LoopState) (e : CLIError)
    (hmiss : (!refresh && env.existingFile (filingDocPath cacheRoot cik row.accession))
      = false)
    (hfetch : env.fetchContent row.accession = .error e) :
    (e.code = .NOT_FOUND →
      syncLoop env cacheRoot cik refresh (row :: rest) st =
        syncLoop env cacheRoot cik refresh rest
          { st with skipped := st.skipped ++ [(row.accession, e.message)] }) ∧
    (¬ e.code = .NOT_FOUND →
      syncLoop env cacheRoot cik refresh (row :: rest) st = .error e) ∧
    (∀ (idInput : String) (ticker title : Option String) (profile : String)
        (ruleRows : List (List FilingRow)) (cacheRoot2 syncedAt : String) (e2 : CLIError),
      syncLoop env cacheRoot2 cik refresh (selectRows ruleRows) ⟨[], [], 0, 0⟩ = .error e2 →
      runResearchSync env idInput cik ticker title profile ruleRows cacheRoot2 refresh
        syncedAt = .error e2) := by
  refine ⟨fun hnf => syncLoop_cons_fetchNotFound hmiss hfetch hnf,
    fun hnf => syncLoop_cons_fetchOtherError hmiss hfetch hnf,
    fun idInput ticker title profile ruleRows cacheRoot2 syncedAt e2 h => ?_⟩
  simp only [runResearchSync]
  rw [h]
  rfl

/-- Witness for C9: an uncached filing whose fetch reports `NOT_FOUND`. -/
theorem syncLoop_fetch_failure_witness :
    ((!false && witnessEnvNotFound.existingFile
        (filingDocPath "/cache" "0000320193" witnessRow.accession)) = false) ∧
    (witnessEnvNotFound.fetchContent witnessRow.accession =
      .error ⟨ErrorCode.NOT_FOUND, "filing not found"⟩) ∧
    (syncLoop witnessEnvNotFound "/cache" "0000320193" false [witnessRow] ⟨[], [], 0, 0⟩ =
      syncLoop witnessEnvNotFound "/cache" "0000320193" false []
        ⟨[], [("0000320193-25-000001", "filing not found")], 0, 0⟩) :=
  ⟨rfl, rfl,
    (syncLoop_fetch_failure witnessEnvNotFound "/cache" "0000320193" false witnessRow
      [] ⟨[], [], 0, 0⟩ ⟨ErrorCode.NOT_FOUND, "filing not found"⟩ rfl rfl).1 rfl⟩

end Edgar

namespace Edgar

theorem syncLoop_counts (env : SyncEnv) (cacheRoot cik : String) (refresh : Bool) :
    ∀ (rows : List FilingRow) (st st' : LoopState),
      syncLoop env cacheRoot cik refresh rows st = .ok st' →
      st'.docs.length + st.fetchedCount + st.reusedCount =
        st.docs.length + st'.fetchedCount + st'.reusedCount ∧
      st'.docs.length + st'.skipped.length =
        st.docs.length + st.skipped.length + rows.length := by
  intro rows
  induction rows with
  | nil =>
    intro st st' h
    simp only [syncLoop, Except.ok.injEq] at h
    subst h
    simp [Nat.add_comm]
  | cons row rest ih =>
    intro st st' h
    by_cases hc : (!refresh && env.existingFile (filingDocPath cacheRoot cik row.accession))
        = true
    · rw [syncLoop_cons_useCache hc] at h
      have h2 := ih _ _ h
      simp only [List.length_append, List.length_cons, List.length_nil] at h2 ⊢
      omega
    · have hc' : (!refresh && env.existingFile (filingDocPath cacheRoot cik row.accession))
          = false := by
        simpa using hc
      cases hfetch : env.fetchContent row.accession with
      | error e =>
        by_cases hnf : e.code = .NOT_FOUND
        · rw [syncLoop_cons_fetchNotFound hc' hfetch hnf] at h
          have h2 := ih _ _ h
          simp only [List.length_append, List.length_cons, List.length_nil] at h2 ⊢
          omega
        · rw [syncLoop_cons_fetchOtherError hc' hfetch hnf] at h
          simp at h
      | ok c =>
        cases c with
        | none =>
          rw [syncLoop_cons_fetchNone hc' hfetch] at h
          simp at h
        | some content =>
          rw [syncLoop_cons_fetchSome hc' hfetch] at h
          have h2 := ih _ _ h
          simp only [List.length_append, List.length_cons, List.length_nil] at h2 ⊢
          omega

theorem syncLoop_skipped_disjoint (env : SyncEnv) (cacheRoot cik : String) (refresh : Bool) :
    ∀ (rows : List FilingRow) (st st' : LoopState),
      (rows.map (fun r => r.accession)).Nodup →
      (∀ r ∈ rows, (∀ d ∈ st.docs, ¬ d.accession = r.accession) ∧
        (∀ p ∈ st.skipped, ¬ p.1 = r.accession)) →
      (∀ p ∈ st.skipped, ∀ d ∈ st.docs, ¬ d.accession = p.1) →
      syncLoop env cacheRoot cik refresh rows st = .ok st' →
      ∀ p ∈ st'.skipped, ∀ d ∈ st'.docs, ¬ d.accession = p.1 := by
  intro rows
  induction rows with
  | nil =>
    intro st st' _ _ hdisj h
    simp only [syncLoop, Except.ok.injEq] at h
    subst h
    exact hdisj
  | cons row rest ih =>
    intro st st' hnd hfresh hdisj h
    rw [List.map_cons, List.nodup_cons] at hnd
    have hrowfresh := hfresh row (List.mem_cons_self _ _)
    have hrestne : ∀ r ∈ rest, ¬ row.accession = r.accession := by
      intro r hr heq
      exact hnd.1 (heq ▸ List.mem_map.mpr ⟨r, hr, rfl⟩)
    by_cases hc : (!refresh && env.existingFile (filingDocPath cacheRoot cik row.accession))
        = true
    · rw [syncLoop_cons_useCache hc] at h
      refine ih _ _ hnd.2 ?_ ?_ h
      · intro r hr
        refine ⟨?_, (hfresh r (List.mem_cons_of_mem row hr)).2⟩
        intro d hd
        rcases List.mem_append.mp hd with hd | hd
        · exact (hfresh r (List.mem_cons_of_mem row hr)).1 d hd
        · have hde : d = mkCachedDoc row (filingDocPath cacheRoot cik row.accession) := by
            simpa using hd
          subst hde
          exact hrestne r hr
      · intro p hp d hd
        rcases List.mem_append.mp hd with hd | hd
        · exact hdisj p hp d hd
        · have hde : d = mkCachedDoc row (filingDocPath cacheRoot cik row.accession) := by
            simpa using hd
          subst hde
          intro heq
          exact hrowfresh.2 p hp (heq.symm ▸ rfl)
    · have hc' : (!refresh && env.existingFile (filingDocPath cacheRoot cik row.accession))
          = false := by
        simpa using hc
      cases hfetch : env.fetchContent row.accession with
      | error e =>
        by_cases hnf : e.code = .NOT_FOUND
        · rw [syncLoop_cons_fetchNotFound hc' hfetch hnf] at h
          refine ih _ _ hnd.2 ?_ ?_ h
          · intro r hr
            refine ⟨(hfresh r (List.mem_cons_of_mem row hr)).1, ?_⟩
            intro p hp
            rcases List.mem_append.mp hp with hp | hp
            · exact (hfresh r (List.mem_cons_of_mem row hr)).2 p hp
            · have hpe : p = (row.accession, e.message) := by simpa using hp
              subst hpe
              exact hrestne r hr
          · intro p hp d hd
            rcases List.mem_append.mp hp with hp | hp
            · exact hdisj p hp d hd
            · have hpe : p = (row.accession, e.message) := by simpa using hp
              subst hpe
              exact hrowfresh.1 d hd
        · rw [syncLoop_cons_fetchOtherError hc' hfetch hnf] at h
          simp at h
      | ok c =>
        cases c with
        | none =>
          rw [syncLoop_cons_fetchNone hc' hfetch] at h
          simp at h
        | some content =>
          rw [syncLoop_cons_fetchSome hc' hfetch] at h
          refine ih _ _ hnd.2 ?_ ?_ h
          · intro r hr
            refine ⟨?_, (hfresh r (List.mem_cons_of_mem row hr)).2⟩
            intro d hd
            rcases List.mem_append.mp hd with hd | hd
            · exact (hfresh r (List.mem_cons_of_mem row hr)).1 d hd
            · have hde : d = mkCachedDoc row (filingDocPath cacheRoot cik row.accession) := by
                simpa using hd
              subst hde
              exact hrestne r hr
          · intro p hp d hd
            rcases List.mem_append.mp hd with hd | hd
            · exact hdisj p hp d hd
            · have hde : d = mkCachedDoc row (filingDocPath cacheRoot cik row.accession) := by
                simpa using hd
              subst hde
              intro heq
              exact hrowfresh.2 p hp (heq.symm ▸ rfl)

theorem selectRows_accessions_nodup (ruleRows : List (List FilingRow)) :
    ((selectRows ruleRows).map (fun r => r.accession)).Nodup := by
  have h0 := foldl_insertRow_nodup ruleRows.flatten [] (by simp)
  rw [← mergeSelection_eq_flatten] at h0
  exact (((List.mergeSort_perm (mergeSelection ruleRows) _).map
    (fun r => r.accession)).nodup_iff).mpr h0

end Edgar

namespace Edgar

/-- C10: every `SyncReport` returned by a completed sync satisfies
`docs_count = fetched_count + reused_count`, `docs_count + skipped_count`
equals the number of selected filings, and no skipped filing's accession
appears in the persisted manifest's docs list. -/
theorem runResearchSync_report_invariants (env : SyncEnv) (idInput cik : String)
    (ticker title : Option String) (profile : String) (ruleRows : List (List FilingRow))
    (cacheRoot : String) (refresh : Bool) (syncedAt : String) (report : SyncReport)
    (h : runResearchSync env idInput cik ticker title profile ruleRows cacheRoot refresh
      syncedAt = .ok report) :
    report.docs_count = report.fetched_count + report.reused_count ∧
    report.docs_count + report.skipped_count = (selectRows ruleRows).length ∧
    (∀ p ∈ report.skipped, ∀ d ∈ report.manifest.docs, ¬ d.accession = p.1) := by
  simp only [runResearchSync] at h
  cases hsl : syncLoop env cacheRoot cik refresh (selectRows ruleRows) ⟨[], [], 0, 0⟩ with
  | error e =>
    rw [hsl] at h
    simp [Except.map] at h
  | ok st =>
    rw [hsl] at h
    simp only [Except.map, Except.ok.injEq] at h
    subst h
    obtain ⟨hc1, hc2⟩ := syncLoop_counts env cacheRoot cik refresh (selectRows ruleRows)
      ⟨[], [], 0, 0⟩ st hsl
    have hd := syncLoop_skipped_disjoint env cacheRoot cik refresh (selectRows ruleRows)
      ⟨[], [], 0, 0⟩ st (selectRows_accessions_nodup ruleRows)
      (by
        intro r _
        constructor
        · intro d hd
          simp at hd
        · intro p hp
          simp at hp)
      (by intro p hp; simp at hp)
      hsl
    simp only [List.length_nil, Nat.add_zero, Nat.zero_add] at hc1 hc2
    refine ⟨?_, ?_, ?_⟩
    · show st.docs.length = st.fetchedCount + st.reusedCount
      omega
    · show st.docs.length + st.skipped.length = (selectRows ruleRows).length
      omega
    · show ∀ p ∈ st.skipped, ∀ d ∈ st.docs, ¬ d.accession = p.1
      exact hd

end Edgar

unseal List.merge List.mergeSort in
theorem Edgar.runResearchSync_report_invariants_witness :
    (runResearchSync witnessEnvOk "AAPL" "0000320193" none none "core" [[witnessRow]]
      "/cache" false "2025-01-01T00:00:00Z" = .ok witnessReport) ∧
    witnessReport.docs_count = witnessReport.fetched_count + witnessReport.reused_count ∧
    witnessReport.docs_count + witnessReport.skipped_count =
      (selectRows [[witnessRow]]).length ∧
    (∀ p ∈ witnessReport.skipped, ∀ d ∈ witnessReport.manifest.docs,
      ¬ d.accession = p.1) :=
  ⟨rfl,
    runResearchSync_report_invariants witnessEnvOk "AAPL" "0000320193" none none "core"
      [[witnessRow]] "/cache" false "2025-01-01T00:00:00Z" witnessReport rfl⟩
